import Mathlib

/-!
Shallow embedding of the batch orchestration pipeline of carbonate_sync.py
(repository criteo/carbonate-utils).

Conventions of the embedding:
* Metric names and filesystem paths are generic types; the source uses
  Python strings, whose identity plays no role in the orchestration logic.
  Regular-expression exclusion patterns and the carbonate sieve (external
  collaborators) are modelled as boolean predicates.
* The source is Python 2 (`print_function` future import, byte-string
  subprocess output, `assertEquals` in the tests), so `/` on integers is
  floor division; it is embedded as Nat division.
* A Python statement that raises an exception is embedded as `Option` /
  `Except`: `_Batch.split_chunks` returns `none` for chunksize 0 because
  `range(0, n, 0)` raises ValueError, `_run` returns `Except.error` when the
  subprocess exit status is non-zero, and the orchestrator loop of `main`
  propagates the first error (there is no try/except in `main`).
* Subprocess standard output is a `List Char` (a Python 2 `str` is a byte
  string); `str.split` on a newline is `splitLines`.
-/

/-- The slices `l[n : n + cs]` for `n in range(0, len(l), cs)`, written with
explicit fuel (one unit per produced chunk; `l.length` units suffice when
`0 < cs`). -/
def sliceChunksFuel {α : Type} : Nat → Nat → List α → List (List α)
  | 0, _, _ => []
  | _ + 1, _, [] => []
  | fuel + 1, cs, x :: xs => (x :: xs).take cs :: sliceChunksFuel fuel cs ((x :: xs).drop cs)

/-- The list of consecutive slices of size `cs` of `l`, as produced by
`for n in range(0, len(self.metrics_fs), chunksize)`. Meaningful for `0 < cs`. -/
def sliceChunks {α : Type} (cs : Nat) (l : List α) : List (List α) :=
  sliceChunksFuel l.length cs l

/-- The `_Batch` namedtuple of carbonate_sync.py: staging directory, metric
paths, time window, remote identity and transport options. `α` is the type of
one metric filesystem path. -/
structure _Batch (α : Type) where
  staging_dir : String
  metrics_fs : List α
  start_time : Int
  end_time : Int
  remote_user : String
  remote_node : String
  rsync_options : List String
  ssh_options : List String
  deriving DecidableEq

/-- `_Batch.metrics_number`: `len(self.metrics_fs)`. -/
def _Batch.metrics_number {α : Type} (b : _Batch α) : Nat :=
  b.metrics_fs.length

/-- `_Batch.split_chunks`: each chunk `self.metrics_fs[n:n+chunksize]` becomes a
batch sharing every other field with `self`. With chunksize 0 the Python
`range(0, len, 0)` raises ValueError, embedded as `none`. -/
def _Batch.split_chunks {α : Type} (b : _Batch α) (chunksize : Nat) :
    Option (List (_Batch α)) :=
  if chunksize = 0 then none
  else some ((sliceChunks chunksize b.metrics_fs).map
    (fun ms => { b with metrics_fs := ms }))

/-- `_filter_metrics`: successively drop the metrics matched by each exclude
pattern (patterns modelled as predicates, `regex.search` truth). -/
def _filter_metrics {α : Type} (metrics : List α) (exclude : List (α → Bool)) :
    List α :=
  exclude.foldl (fun ms regex => ms.filter (fun m => ! regex m)) metrics

/-- `_list_metrics`: the peer's catalogue, minus excluded names, restricted by
the carbonate sieve to the metrics the local node owns (`own`, an external
collaborator modelled as a predicate), and sorted. Python's `sorted` is a
stable ascending sort, embedded as insertion sort. No deduplication happens. -/
def _list_metrics {α : Type} [LinearOrder α] (catalogue : List α)
    (exclude : List (α → Bool)) (own : α → Bool) : List α :=
  List.insertionSort (· ≤ ·) ((_filter_metrics catalogue exclude).filter own)

/-- The batches built in `main`: one `_Batch` holding every resolved metric
path, split into chunks of `batch_size`. `metric_to_fs` is the external
`carbonate_util.metric_to_fs` (a 1:1 name-to-path mapping). -/
def peerBatches {M P : Type} [LinearOrder M] (b0 : _Batch P) (catalogue : List M)
    (exclude : List (M → Bool)) (own : M → Bool) (metric_to_fs : M → P)
    (batch_size : Nat) : Option (List (_Batch P)) :=
  _Batch.split_chunks
    { b0 with metrics_fs := (_list_metrics catalogue exclude own).map metric_to_fs }
    batch_size

/-- The heal re-chunking of one fetched batch in `_fetch_merge`:
`heal_chunksize = batch_fetched.metrics_number / multiprocessing.cpu_count()`
(Python 2 floor division) followed by `split_chunks`. -/
def rechunk {α : Type} (cpu : Nat) (b : _Batch α) : Option (List (_Batch α)) :=
  b.split_chunks (b.metrics_number / cpu)

/-- The heal re-chunking applied to every fetched batch of a run; the first
ValueError aborts, as the worker-pool exception propagates. -/
def rechunkAll {α : Type} (cpu : Nat) : List (_Batch α) → Option (List (_Batch α))
  | [] => some []
  | b :: bs =>
    match rechunk cpu b, rechunkAll cpu bs with
    | some ps, some rest => some (ps ++ rest)
    | _, _ => none

/-- The work-done increments of one batch in `_fetch_merge`:
`fetch_percent * metrics_number` when its fetch completes, then
`heal_percent * metrics_number` for each of its heal chunks
(`fetch_percent = 10`, `heal_percent = 90`). -/
def batchDeltas {α : Type} (cpu : Nat) (b : _Batch α) : Option (List Nat) :=
  match rechunk cpu b with
  | none => none
  | some heals =>
    some (10 * b.metrics_number :: heals.map (fun h => 90 * h.metrics_number))

/-- The work-done increments of a whole `_fetch_merge` run, batch after
batch (one completion order; `imap_unordered` may interleave them, which the
theorems cover by quantifying over permutations). -/
def pipelineDeltas {α : Type} (cpu : Nat) : List (_Batch α) → Option (List Nat)
  | [] => some []
  | b :: bs =>
    match batchDeltas cpu b, pipelineDeltas cpu bs with
    | some d, some ds => some (d ++ ds)
    | _, _ => none

/-- The values `work_done // total_metrics_number` passed to `update_cb` after
the initial call, starting from accumulated work `acc`. -/
def progressAux (total : Nat) : Nat → List Nat → List Nat
  | _, [] => []
  | acc, d :: ds => (acc + d) / total :: progressAux total (acc + d) ds

/-- Every value passed to `update_cb` during `_fetch_merge`: the initial
`update_cb(work_done)` with `work_done = 0`, then one quotient per completion
event. -/
def progressValues (total : Nat) (deltas : List Nat) : List Nat :=
  0 :: progressAux total 0 deltas

/-- `total_metrics_number = sum(b.metrics_number for b in fetch_batches)`. -/
def totalMetrics {α : Type} (batches : List (_Batch α)) : Nat :=
  (batches.map _Batch.metrics_number).sum

/-- Observable behaviour of `_fetch_merge` (PARALLEL branch): the progress
values passed to `update_cb`, the batches given to the rsync pool, and the heal
chunks given to the heal pool; `none` when a heal re-chunking raises. -/
def _fetch_merge {α : Type} (cpu : Nat) (batches : List (_Batch α)) :
    Option (List Nat × List (_Batch α) × List (_Batch α)) :=
  match pipelineDeltas cpu batches, rechunkAll cpu batches with
  | some ds, some heals => some (progressValues (totalMetrics batches) ds, batches, heals)
  | _, _ => none

/-- `str.split('\n')` on a Python 2 byte string. -/
def splitLines : List Char → List (List Char)
  | [] => [[]]
  | c :: cs =>
    let rest := splitLines cs
    if c = '\n' then [] :: rest
    else
      match rest with
      | [] => [[c]]
      | r :: rs => (c :: r) :: rs

/-- `_run`: start a subprocess and return its output. `returncode` and `stdout`
describe what the subprocess did (stderr is folded into stdout by
`stderr=subprocess.STDOUT`). A non-zero exit status raises `Error`; otherwise
the non-empty lines are returned when stdout is non-empty, and `None`
(embedded `none`) when stdout is empty, because `if stdout:` is false then. -/
def _run (returncode : Int) (stdout : List Char) (cmd : String) :
    Except String (Option (List (List Char))) :=
  if returncode ≠ 0 then
    Except.error ("Subcommand failed: " ++ cmd ++ ": " ++
      (if stdout.isEmpty then "<No output>" else String.mk stdout))
  else if stdout.isEmpty then Except.ok none
  else Except.ok (some ((splitLines stdout).filter (fun l => ! l.isEmpty)))

/-- The externally visible steps of the per-peer loop body of `main`. -/
inductive SyncEvent
  | listMetrics (node : String)
  | mkStaging (node : String)
  | fetchMerge (node : String)
  | cleanup (node : String)
  | done (node : String)
  deriving DecidableEq

/-- One iteration of the loop of `main` for `node`: list metrics (may raise a
transport `Error`), create the staging directory, plan and run
`_fetch_merge` (may raise), then `shutil.rmtree(staging_dir)` and the final
log line. There is no try/except and no finally: the first exception stops the
iteration, skipping every later statement. `resolveRes` and `fmRes` abstract
the outcomes of the external calls. -/
def runPeer {E : Type} (resolveRes : Except E (List String)) (fmRes : Except E Unit)
    (node : String) : List SyncEvent × Option E :=
  match resolveRes with
  | Except.error e => ([SyncEvent.listMetrics node], some e)
  | Except.ok _ =>
    match fmRes with
    | Except.error e =>
      ([SyncEvent.listMetrics node, SyncEvent.mkStaging node, SyncEvent.fetchMerge node],
       some e)
    | Except.ok _ =>
      ([SyncEvent.listMetrics node, SyncEvent.mkStaging node, SyncEvent.fetchMerge node,
        SyncEvent.cleanup node, SyncEvent.done node], none)

/-- The `for n, node in enumerate(remote_nodes)` loop of `main`: peers strictly
in sequence, and an uncaught exception from any iteration aborts the whole
loop (the remaining peers are never visited). -/
def mainLoop {E : Type} (resolve : String → Except E (List String))
    (fm : String → Except E Unit) : List String → List SyncEvent × Option E
  | [] => ([], none)
  | n :: ns =>
    match runPeer (resolve n) (fm n) n with
    | (evs, some e) => (evs, some e)
    | (evs, none) =>
      let r := mainLoop resolve fm ns
      (evs ++ r.1, r.2)

/-- The field names of the `_Batch` namedtuple in src/carbonate_sync.py. -/
def batchFields : List String :=
  ["staging_dir", "metrics_fs", "start_time", "end_time",
   "remote_user", "remote_node", "rsync_options", "ssh_options"]

/-- The keyword arguments with which tests/test_carbonate_sync.py `test_heal`
constructs `_Batch(**attr)`. -/
def testHealBatchKwargs : List String :=
  ["staging_dir", "metrics_fs", "start_time", "end_time",
   "remote_user", "remote_node", "rsync_options", "ssh_options", "overwrite"]

/-- A concrete batch over `Nat` metric paths, for witnesses. -/
def mkBatch (ms : List Nat) : _Batch Nat :=
  { staging_dir := "/tmp/peer1", metrics_fs := ms, start_time := 0, end_time := 100,
    remote_user := "graphite", remote_node := "peer1",
    rsync_options := [], ssh_options := [] }

/-- A resolver that succeeds on every node, for counterexamples. -/
def resolveOk : String → Except String (List String) :=
  fun _ => Except.ok ["metric.a"]

/-- A fetch-and-merge outcome that fails (one heal raising propagates out of
the pool), for counterexamples. -/
def fmFail : String → Except String Unit :=
  fun _ => Except.error "heal failed"

/-- A resolver whose catalogue listing fails with a transport error,
for counterexamples. -/
def resolveFail : String → Except String (List String) :=
  fun _ => Except.error "transport"

/-- A fetch-and-merge outcome that succeeds, for counterexamples. -/
def fmOk : String → Except String Unit :=
  fun _ => Except.ok ()

/-- A fetch-and-merge outcome failing in the transfer stage (`rsync` exiting
non-zero inside `_fetch_from_remote`, the `Error` propagating out of the rsync
pool), for counterexamples. -/
def fmTransferFail : String → Except String Unit :=
  fun _ => Except.error "rsync failed"

/-- Chunks cover the list: with a positive chunk size and enough fuel, the
slices concatenate back to the input, in order. -/
theorem sliceChunksFuel_flatten {α : Type} :
    ∀ (fuel cs : Nat) (l : List α), 0 < cs → l.length ≤ fuel →
      (sliceChunksFuel fuel cs l).flatten = l
  | 0, _, l, _, hf => by
    have hl : l = [] := List.length_eq_zero.mp (Nat.le_zero.mp hf)
    subst hl; rfl
  | _ + 1, _, [], _, _ => rfl
  | fuel + 1, cs, x :: xs, hcs, hf => by
    have hlen : ((x :: xs).drop cs).length ≤ fuel := by
      simp only [List.length_cons] at hf
      simp only [List.length_drop, List.length_cons]
      omega
    simp only [sliceChunksFuel, List.flatten_cons,
      sliceChunksFuel_flatten fuel cs _ hcs hlen, List.take_append_drop]

/-- Every chunk has at most `cs` elements. -/
theorem sliceChunksFuel_length_le {α : Type} :
    ∀ (fuel cs : Nat) (l c : List α), c ∈ sliceChunksFuel fuel cs l → c.length ≤ cs
  | 0, _, _, _, h => by simp [sliceChunksFuel] at h
  | _ + 1, _, [], _, h => by simp [sliceChunksFuel] at h
  | fuel + 1, cs, x :: xs, c, h => by
    rcases List.mem_cons.mp h with rfl | h2
    · rw [List.length_take]
      exact Nat.min_le_left cs (x :: xs).length
    · exact sliceChunksFuel_length_le fuel cs _ c h2

/-- `sliceChunksFuel` of the empty list is empty, whatever the fuel. -/
theorem sliceChunksFuel_nil {α : Type} (fuel cs : Nat) :
    sliceChunksFuel fuel cs ([] : List α) = [] := by
  cases fuel <;> rfl

/-- Every chunk except the last has exactly `cs` elements. -/
theorem sliceChunksFuel_dropLast_length {α : Type} :
    ∀ (fuel cs : Nat) (l c : List α), 0 < cs → l.length ≤ fuel →
      c ∈ (sliceChunksFuel fuel cs l).dropLast → c.length = cs
  | 0, _, _, _, _, _, h => by simp [sliceChunksFuel] at h
  | _ + 1, _, [], _, _, _, h => by simp [sliceChunksFuel] at h
  | fuel + 1, cs, x :: xs, c, hcs, hf, h => by
    rw [sliceChunksFuel] at h
    rcases hr : sliceChunksFuel fuel cs ((x :: xs).drop cs) with _ | ⟨r, rs⟩
    · rw [hr] at h
      simp at h
    · rw [hr] at h
      rw [List.dropLast_cons₂] at h
      have hd : (x :: xs).drop cs ≠ [] := by
        intro hnil
        rw [hnil, sliceChunksFuel_nil] at hr
        exact List.noConfusion hr
      have hlong : cs < (x :: xs).length := by
        by_contra hle
        exact hd (List.drop_eq_nil_of_le (Nat.le_of_not_lt hle))
      rcases List.mem_cons.mp h with rfl | h2
      · simp only [List.length_take]
        omega
      · have hlen : ((x :: xs).drop cs).length ≤ fuel := by
          simp only [List.length_drop, List.length_cons]
          simp only [List.length_cons] at hf
          omega
        exact sliceChunksFuel_dropLast_length fuel cs _ c hcs hlen (hr ▸ h2)

/-- Unfolding a successful `split_chunks`: the chunk size was positive and the
result is the mapped slice list. -/
theorem split_chunks_some {α : Type} {b : _Batch α} {cs : Nat} {out : List (_Batch α)}
    (h : b.split_chunks cs = some out) :
    0 < cs ∧ out = (sliceChunks cs b.metrics_fs).map (fun ms => { b with metrics_fs := ms }) := by
  unfold _Batch.split_chunks at h
  split at h
  · exact absurd h (by simp)
  · next hcs =>
    refine ⟨Nat.pos_of_ne_zero hcs, ?_⟩
    injection h with h2
    exact h2.symm

/-- The metric lists of the batches returned by `split_chunks` are the slices. -/
theorem split_chunks_metrics {α : Type} {b : _Batch α} {cs : Nat} {out : List (_Batch α)}
    (h : b.split_chunks cs = some out) :
    out.map _Batch.metrics_fs = sliceChunks cs b.metrics_fs := by
  obtain ⟨_, rfl⟩ := split_chunks_some h
  rw [List.map_map]
  exact List.map_id _

/-- The batches returned by `split_chunks` concatenate back to the input
metric list. -/
theorem split_chunks_flatten {α : Type} {b : _Batch α} {cs : Nat} {out : List (_Batch α)}
    (h : b.split_chunks cs = some out) :
    (out.map _Batch.metrics_fs).flatten = b.metrics_fs := by
  obtain ⟨hcs, _⟩ := split_chunks_some h
  rw [split_chunks_metrics h]
  exact sliceChunksFuel_flatten _ _ _ hcs le_rfl

/-- Re-chunking every batch preserves the concatenated metric list. -/
theorem rechunkAll_flatten {α : Type} (cpu : Nat) :
    ∀ (bs ps : List (_Batch α)), rechunkAll cpu bs = some ps →
      (ps.map _Batch.metrics_fs).flatten = (bs.map _Batch.metrics_fs).flatten
  | [], ps, h => by
    injection h with h2
    subst h2
    rfl
  | b :: bs, ps, h => by
    unfold rechunkAll at h
    rcases h1 : rechunk cpu b with _ | ps1 <;> rw [h1] at h
    · exact absurd h (by simp)
    · rcases h2 : rechunkAll cpu bs with _ | rest <;> rw [h2] at h
      · exact absurd h (by simp)
      · injection h with h3
        subst h3
        have h1' : b.split_chunks (b.metrics_number / cpu) = some ps1 := h1
        simp only [List.map_append, List.flatten_append, List.map_cons, List.flatten_cons]
        rw [rechunkAll_flatten cpu bs rest h2, split_chunks_flatten h1']

/-- Exclude filtering only removes elements: the result is a sublist of the
input. -/
theorem _filter_metrics_sublist {α : Type} :
    ∀ (exclude : List (α → Bool)) (metrics : List α),
      List.Sublist (_filter_metrics metrics exclude) metrics
  | [], _ => List.Sublist.refl _
  | p :: ex, metrics => by
    have h1 : _filter_metrics metrics (p :: ex) =
        _filter_metrics (metrics.filter (fun m => ! p m)) ex := rfl
    rw [h1]
    exact List.Sublist.trans (_filter_metrics_sublist ex _) (List.filter_sublist _)

/-- A duplicate-free catalogue stays duplicate-free through exclusion,
ownership restriction and sorting. -/
theorem _list_metrics_nodup {α : Type} [LinearOrder α] {catalogue : List α}
    (exclude : List (α → Bool)) (own : α → Bool) (h : catalogue.Nodup) :
    (_list_metrics catalogue exclude own).Nodup := by
  have h1 : (_filter_metrics catalogue exclude).Nodup :=
    h.sublist (_filter_metrics_sublist exclude catalogue)
  have h2 : ((_filter_metrics catalogue exclude).filter own).Nodup :=
    h1.sublist (List.filter_sublist _)
  exact ((List.perm_insertionSort (· ≤ ·) _).nodup_iff).mpr h2

/-- Multiplying through a mapped sum. -/
theorem sum_map_mul_const {α : Type} (k : Nat) (f : α → Nat) :
    ∀ l : List α, (l.map (fun x => k * f x)).sum = k * (l.map f).sum
  | [] => by simp
  | x :: xs => by
    simp only [List.map_cons, List.sum_cons, sum_map_mul_const k f xs, Nat.mul_add]

/-- The work increments of one batch total `100 * metrics_number`:
10 per metric on fetch completion plus 90 per metric across its heal chunks. -/
theorem batchDeltas_sum {α : Type} {cpu : Nat} {b : _Batch α} {d : List Nat}
    (h : batchDeltas cpu b = some d) : d.sum = 100 * b.metrics_number := by
  unfold batchDeltas at h
  rcases h1 : rechunk cpu b with _ | heals <;> rw [h1] at h
  · exact absurd h (by simp)
  · injection h with h2
    subst h2
    have h1' : b.split_chunks (b.metrics_number / cpu) = some heals := h1
    have hflat : (heals.map _Batch.metrics_fs).flatten = b.metrics_fs :=
      split_chunks_flatten h1'
    have hlen : (heals.map _Batch.metrics_number).sum = b.metrics_number := by
      have := congrArg List.length hflat
      rw [List.length_flatten, List.map_map] at this
      exact this
    simp only [List.sum_cons, sum_map_mul_const 90 _Batch.metrics_number heals, hlen]
    ring

/-- The work increments of a whole run total `100 * totalMetrics`. -/
theorem pipelineDeltas_sum {α : Type} (cpu : Nat) :
    ∀ (bs : List (_Batch α)) (ds : List Nat), pipelineDeltas cpu bs = some ds →
      ds.sum = 100 * totalMetrics bs
  | [], ds, h => by
    injection h with h2
    subst h2
    rfl
  | b :: bs, ds, h => by
    unfold pipelineDeltas at h
    rcases h1 : batchDeltas cpu b with _ | d <;> rw [h1] at h
    · exact absurd h (by simp)
    · rcases h2 : pipelineDeltas cpu bs with _ | rest <;> rw [h2] at h
      · exact absurd h (by simp)
      · injection h with h3
        subst h3
        rw [List.sum_append, batchDeltas_sum h1, pipelineDeltas_sum cpu bs rest h2]
        unfold totalMetrics
        simp [Nat.mul_add]

/-- The quotients reported after successive non-negative increments are
non-decreasing. -/
theorem progressAux_chain (total : Nat) :
    ∀ (ds : List Nat) (acc : Nat),
      List.Chain' (· ≤ ·) (acc / total :: progressAux total acc ds)
  | [], acc => by simp [progressAux]
  | d :: ds, acc => by
    rw [progressAux]
    exact List.chain'_cons.mpr
      ⟨Nat.div_le_div_right (Nat.le_add_right _ _), progressAux_chain total ds (acc + d)⟩

/-- As long as the accumulated work stays within `100 * total`, every reported
quotient is at most 100. -/
theorem progressAux_le (total : Nat) :
    ∀ (ds : List Nat) (acc : Nat), acc + ds.sum ≤ 100 * total →
      ∀ v ∈ progressAux total acc ds, v ≤ 100
  | [], _, _ => by simp [progressAux]
  | d :: ds, acc, h => by
    rw [progressAux]
    intro v hv
    rcases List.mem_cons.mp hv with rfl | hv2
    · refine Nat.div_le_of_le_mul ?_
      rw [Nat.mul_comm]
      simp only [List.sum_cons] at h
      omega
    · refine progressAux_le total ds (acc + d) ?_ v hv2
      simp only [List.sum_cons] at h
      omega

/-- Claim C1 (amended): for every metric list and batch size at least 1,
`split_chunks` yields batches of size at most `batch_size`, in input order,
whose concatenation equals the input exactly once; it equals the deduplicated
input exactly when the input carries no duplicates (the code never
deduplicates). -/
theorem split_chunks_plan_spec {α : Type} [DecidableEq α] (b : _Batch α)
    (batch_size : Nat) (out : List (_Batch α))
    (h : b.split_chunks batch_size = some out) :
    (∀ b2 ∈ out, b2.metrics_fs.length ≤ batch_size) ∧
    (out.map _Batch.metrics_fs).flatten = b.metrics_fs ∧
    (b.metrics_fs.Nodup → (out.map _Batch.metrics_fs).flatten = b.metrics_fs.dedup) := by
  obtain ⟨hcs, hout⟩ := split_chunks_some h
  refine ⟨?_, split_chunks_flatten h, ?_⟩
  · intro b2 hb2
    rw [hout] at hb2
    rcases List.mem_map.mp hb2 with ⟨ms, hms, rfl⟩
    exact sliceChunksFuel_length_le _ _ _ _ hms
  · intro hnd
    rw [split_chunks_flatten h, List.dedup_eq_self.mpr hnd]

/-- Witness for C1: splitting a three-metric batch with batch size 2. -/
theorem split_chunks_plan_spec_witness :
    ((mkBatch [1, 2, 3]).split_chunks 2 = some [mkBatch [1, 2], mkBatch [3]]) ∧
    (([mkBatch [1, 2], mkBatch [3]].map _Batch.metrics_fs).flatten =
      (mkBatch [1, 2, 3]).metrics_fs) :=
  ⟨by rfl,
   (split_chunks_plan_spec (mkBatch [1, 2, 3]) 2 [mkBatch [1, 2], mkBatch [3]] (by rfl)).2.1⟩

/-- Counterexample for C1 as stated: an input with a duplicate passes through
`split_chunks` unchanged, so the concatenation is the input, not the
deduplicated input. -/
theorem split_chunks_dedup_counterexample :
    ((mkBatch [1, 1]).split_chunks 1).map
      (fun out => (out.map _Batch.metrics_fs).flatten) = some [1, 1] ∧
    ([1, 1] : List Nat).dedup = [1] ∧ ([1, 1] : List Nat) ≠ [1] := by
  exact ⟨by rfl, by decide, by decide⟩

/-- Claim C2 (amended): re-chunking before healing uses chunk size
`floor(len / worker_count)` (Python 2 floor division), not the ceiling: every
piece has at most that many metrics, every piece but the last exactly that
many, and the pieces concatenate to the batch's metric list. -/
theorem rechunk_floor_spec {α : Type} (cpu : Nat) (b : _Batch α)
    (ps : List (_Batch α)) (h : rechunk cpu b = some ps) :
    (∀ p ∈ ps, p.metrics_fs.length ≤ b.metrics_number / cpu) ∧
    (∀ p ∈ ps.dropLast, p.metrics_fs.length = b.metrics_number / cpu) ∧
    (ps.map _Batch.metrics_fs).flatten = b.metrics_fs := by
  have h' : b.split_chunks (b.metrics_number / cpu) = some ps := h
  obtain ⟨hcs, hout⟩ := split_chunks_some h'
  refine ⟨?_, ?_, split_chunks_flatten h'⟩
  · intro p hp
    rw [hout] at hp
    rcases List.mem_map.mp hp with ⟨ms, hms, rfl⟩
    exact sliceChunksFuel_length_le _ _ _ _ hms
  · intro p hp
    rw [hout, ← List.map_dropLast] at hp
    rcases List.mem_map.mp hp with ⟨ms, hms, rfl⟩
    exact sliceChunksFuel_dropLast_length _ _ _ _ hcs le_rfl hms

/-- Witness for C2: five metrics over two workers give floor-size-2 pieces
[2, 2, 1]. -/
theorem rechunk_floor_spec_witness :
    (rechunk 2 (mkBatch [1, 2, 3, 4, 5]) =
      some [mkBatch [1, 2], mkBatch [3, 4], mkBatch [5]]) ∧
    (∀ p ∈ [mkBatch [1, 2], mkBatch [3, 4], mkBatch [5]].dropLast,
      p.metrics_fs.length = (mkBatch [1, 2, 3, 4, 5]).metrics_number / 2) :=
  ⟨by rfl,
   (rechunk_floor_spec 2 (mkBatch [1, 2, 3, 4, 5])
     [mkBatch [1, 2], mkBatch [3, 4], mkBatch [5]] (by rfl)).2.1⟩

/-- Counterexample for C2 as stated: with 5 metrics and 2 workers the ceiling
is 3, but the code produces pieces of sizes [2, 2, 1]; not every piece has the
ceiling size. -/
theorem rechunk_ceil_counterexample :
    (rechunk 2 (mkBatch [1, 2, 3, 4, 5])).map
      (fun ps => ps.map _Batch.metrics_number) = some [2, 2, 1] ∧
    (5 + 2 - 1) / 2 = 3 ∧
    ¬ (∀ s ∈ [2, 2, 1], s = (5 + 2 - 1) / 2) := by
  exact ⟨by rfl, by rfl, by decide⟩

/-- Claim C3: on a non-empty batch, `split_chunks` with chunksize 0 fails
(ValueError from `range(0, n, 0)`); the heal chunksize is the floor of
`metrics_number / cpu_count`, which is 0 when the batch has fewer metrics than
there are CPUs, so re-chunking such a fetched batch fails. -/
theorem split_chunks_zero_rechunk_fails {α : Type} (b : _Batch α) (cpu : Nat)
    (_hne : b.metrics_fs ≠ []) (hlt : b.metrics_number < cpu) :
    b.split_chunks 0 = none ∧ b.metrics_number / cpu = 0 ∧ rechunk cpu b = none := by
  have hdiv : b.metrics_number / cpu = 0 := Nat.div_eq_of_lt hlt
  refine ⟨by unfold _Batch.split_chunks; simp, hdiv, ?_⟩
  unfold rechunk
  rw [hdiv]
  unfold _Batch.split_chunks
  simp

/-- Witness for C3: one metric, two CPUs. -/
theorem split_chunks_zero_rechunk_fails_witness :
    ((mkBatch [42]).metrics_fs ≠ [] ∧ (mkBatch [42]).metrics_number < 2) ∧
    ((mkBatch [42]).split_chunks 0 = none ∧
     (mkBatch [42]).metrics_number / 2 = 0 ∧ rechunk 2 (mkBatch [42]) = none) :=
  ⟨⟨by decide, by decide⟩,
   split_chunks_zero_rechunk_fails (mkBatch [42]) 2 (by decide) (by decide)⟩

/-- Claim C4 (amended): provided the peer's catalogue contains no duplicate
names (and metric-to-path is injective, as specified of the external mapping),
the heal pieces of one peer run have pairwise-disjoint metric lists. With a
catalogue containing duplicates the code violates the claim, see the
counterexample. -/
theorem peer_run_pieces_disjoint {M P : Type} [LinearOrder M]
    (b0 : _Batch P) (catalogue : List M) (exclude : List (M → Bool))
    (own : M → Bool) (metric_to_fs : M → P) (batch_size cpu : Nat)
    (batches pieces : List (_Batch P))
    (hcat : catalogue.Nodup) (hinj : Function.Injective metric_to_fs)
    (hplan : peerBatches b0 catalogue exclude own metric_to_fs batch_size = some batches)
    (hre : rechunkAll cpu batches = some pieces) :
    (pieces.map _Batch.metrics_fs).Pairwise List.Disjoint := by
  have hplan' : _Batch.split_chunks
      { b0 with metrics_fs := (_list_metrics catalogue exclude own).map metric_to_fs }
      batch_size = some batches := hplan
  have hm : (pieces.map _Batch.metrics_fs).flatten =
      (_list_metrics catalogue exclude own).map metric_to_fs := by
    rw [rechunkAll_flatten cpu batches pieces hre]
    exact split_chunks_flatten hplan'
  have hnd : ((_list_metrics catalogue exclude own).map metric_to_fs).Nodup :=
    (_list_metrics_nodup exclude own hcat).map hinj
  rw [← hm] at hnd
  exact (List.nodup_flatten.mp hnd).2

/-- Witness for C4: a duplicate-free two-metric catalogue, batch size 1,
one CPU. -/
theorem peer_run_pieces_disjoint_witness :
    (([2, 1] : List Nat).Nodup ∧
     peerBatches (mkBatch []) [2, 1] [] (fun _ => true) id 1 =
       some [mkBatch [1], mkBatch [2]] ∧
     rechunkAll 1 [mkBatch [1], mkBatch [2]] = some [mkBatch [1], mkBatch [2]]) ∧
    (([mkBatch [1], mkBatch [2]].map _Batch.metrics_fs).Pairwise List.Disjoint) :=
  ⟨⟨by decide, by rfl, by rfl⟩,
   peer_run_pieces_disjoint (mkBatch []) [2, 1] [] (fun _ => true) id 1 1
     [mkBatch [1], mkBatch [2]] [mkBatch [1], mkBatch [2]]
     (by decide) (fun _ _ hab => hab) (by rfl) (by rfl)⟩

/-- Counterexample for C4 as stated: a catalogue with a duplicate name puts
the same metric path into two pieces of the same peer run. -/
theorem peer_run_disjoint_counterexample :
    ((peerBatches (mkBatch []) [1, 1] [] (fun _ => true) id 1).bind
      (rechunkAll 1)).map (fun ps => ps.map _Batch.metrics_fs) = some [[1], [1]] ∧
    ¬ (([[1], [1]] : List (List Nat)).Pairwise List.Disjoint) := by
  refine ⟨by rfl, ?_⟩
  simp [List.disjoint_left]

/-- Claim C5: in any order in which the fetch and heal completions of a run can
arrive, the progress values passed to `update_cb` are monotonically
non-decreasing and stay within [0, 100] of the fixed-point scale (total work =
metric count x 100; 10 units per fetched metric, 90 per healed metric). -/
theorem fetch_merge_progress_monotone_bounded {α : Type} (cpu : Nat)
    (batches : List (_Batch α)) (ds0 ds : List Nat)
    (hds : pipelineDeltas cpu batches = some ds0) (hperm : ds.Perm ds0) :
    List.Chain' (· ≤ ·) (progressValues (totalMetrics batches) ds) ∧
    ∀ v ∈ progressValues (totalMetrics batches) ds, v ≤ 100 := by
  constructor
  · unfold progressValues
    have h := progressAux_chain (totalMetrics batches) ds 0
    rwa [Nat.zero_div] at h
  · intro v hv
    rcases List.mem_cons.mp hv with rfl | hv2
    · exact Nat.zero_le 100
    · refine progressAux_le (totalMetrics batches) ds 0 ?_ v hv2
      rw [Nat.zero_add, hperm.sum_eq, pipelineDeltas_sum cpu batches ds0 hds]

/-- Witness for C5: one batch of two metrics on one CPU produces increments
[20, 180] and progress values [0, 10, 100]. -/
theorem fetch_merge_progress_witness :
    (pipelineDeltas 1 [mkBatch [5, 7]] = some [20, 180]) ∧
    List.Chain' (· ≤ ·) (progressValues (totalMetrics [mkBatch [5, 7]]) [20, 180]) :=
  ⟨by rfl,
   (fetch_merge_progress_monotone_bounded 1 [mkBatch [5, 7]] [20, 180] [20, 180]
     (by rfl) (List.Perm.refl _)).1⟩

/-- Claim C6 (amended): the staging directory of a peer is removed exactly when
the peer's metric listing and its whole fetch-and-heal phase succeed; a heal
failure propagates out of the worker pool, `shutil.rmtree` is never reached
(there is no finally block), and the run aborts. -/
theorem staging_cleanup_iff_success {E : Type} (resolveRes : Except E (List String))
    (fmRes : Except E Unit) (node : String) :
    SyncEvent.cleanup node ∈ (runPeer resolveRes fmRes node).1 ↔
      (resolveRes.isOk = true ∧ fmRes.isOk = true) := by
  cases resolveRes <;> cases fmRes <;> simp [runPeer, Except.isOk, Except.toBool]

/-- Counterexample for C6 as stated: with a successful resolve and a failing
heal, the run for the peer ends in error and the staging directory is never
cleaned up. -/
theorem staging_cleanup_counterexample :
    (mainLoop resolveOk fmFail ["node1"]).1 =
      [SyncEvent.listMetrics "node1", SyncEvent.mkStaging "node1",
       SyncEvent.fetchMerge "node1"] ∧
    SyncEvent.cleanup "node1" ∉ (mainLoop resolveOk fmFail ["node1"]).1 ∧
    (mainLoop resolveOk fmFail ["node1"]).2 = some "heal failed" := by
  exact ⟨by rfl, by decide, by rfl⟩

/-- Claim C7 (amended): a transport error for one peer aborts the whole run at
either failure site, not only that peer: `main` has no exception handler, so
whether the metric-catalogue listing fails (resolve site) or the file transfer
inside the fetch-and-merge phase fails (transfer site), the error propagates,
the loop stops, and no later peer in the list is processed. -/
theorem transport_error_aborts_run {E : Type}
    (resolve : String → Except E (List String)) (fm : String → Except E Unit)
    (node : String) (rest : List String) (e : E) :
    (resolve node = Except.error e →
      mainLoop resolve fm (node :: rest) = ([SyncEvent.listMetrics node], some e)) ∧
    (∀ ms, resolve node = Except.ok ms → fm node = Except.error e →
      mainLoop resolve fm (node :: rest) =
        ([SyncEvent.listMetrics node, SyncEvent.mkStaging node,
          SyncEvent.fetchMerge node], some e)) := by
  constructor
  · intro h
    simp [mainLoop, runPeer, h]
  · intro ms h1 h2
    simp [mainLoop, runPeer, h1, h2]

/-- Witness for C7: two peers; first the catalogue listing of peer "n1" fails,
then (second scenario) its listing succeeds but its file transfer fails; in
both runs peer "n2" is never reached. -/
theorem transport_error_aborts_run_witness :
    (mainLoop resolveFail fmOk ["n1", "n2"] =
      ([SyncEvent.listMetrics "n1"], some "transport")) ∧
    (mainLoop resolveOk fmTransferFail ["n1", "n2"] =
      ([SyncEvent.listMetrics "n1", SyncEvent.mkStaging "n1",
        SyncEvent.fetchMerge "n1"], some "rsync failed")) :=
  ⟨(transport_error_aborts_run resolveFail fmOk "n1" ["n2"] "transport").1 rfl,
   (transport_error_aborts_run resolveOk fmTransferFail "n1" ["n2"] "rsync failed").2
     ["metric.a"] rfl rfl⟩

/-- Counterexample for C7 as stated: after the first peer's transport error,
the orchestrator does not continue to the second peer; no event for "n2" is
ever produced. -/
theorem transport_error_continue_counterexample :
    (mainLoop resolveFail fmOk ["n1", "n2"]).2 = some "transport" ∧
    SyncEvent.listMetrics "n2" ∉ (mainLoop resolveFail fmOk ["n1", "n2"]).1 ∧
    SyncEvent.done "n2" ∉ (mainLoop resolveFail fmOk ["n1", "n2"]).1 := by
  exact ⟨by rfl, by decide, by decide⟩

/-- Claim C8 (amended): `_run` fails if and only if the subprocess exits with a
non-zero status. On a zero exit status with non-empty output the non-empty
lines are returned; with empty output it returns `None` rather than failing. -/
theorem run_fails_iff_nonzero_exit (returncode : Int) (stdout : List Char)
    (cmd : String) :
    ((_run returncode stdout cmd).isOk = false ↔ returncode ≠ 0) ∧
    (returncode = 0 → stdout = [] → _run returncode stdout cmd = Except.ok none) ∧
    (returncode = 0 → stdout ≠ [] →
      _run returncode stdout cmd =
        Except.ok (some ((splitLines stdout).filter (fun l => ! l.isEmpty)))) := by
  unfold _run
  by_cases h : returncode = 0
  · subst h
    by_cases he : stdout = []
    · subst he
      simp [Except.isOk, Except.toBool]
    · have he2 : stdout.isEmpty = false := by
        cases stdout
        · exact absurd rfl he
        · rfl
      simp [he2, he, Except.isOk, Except.toBool]
  · simp [h, Except.isOk, Except.toBool]

/-- Witness for C8: exit status 0 with output "ab\n\ncd" returns the two
non-empty lines. -/
theorem run_fails_iff_nonzero_exit_witness :
    ((0 : Int) = 0 ∧ ("ab\n\ncd".toList ≠ [])) ∧
    _run 0 "ab\n\ncd".toList "carbon-list" =
      Except.ok (some ((splitLines "ab\n\ncd".toList).filter (fun l => ! l.isEmpty))) :=
  ⟨⟨rfl, by decide⟩,
   (run_fails_iff_nonzero_exit 0 "ab\n\ncd".toList "carbon-list").2.2 rfl (by decide)⟩

/-- Counterexample for C8 as stated: a subprocess with exit status 0 and no
output does not fail; `_run` returns `None` (no lines) instead of raising. -/
theorem run_no_output_counterexample :
    _run 0 [] "ssh peer -- carbon-list" = Except.ok none ∧
    (_run 0 [] "ssh peer -- carbon-list").isOk = true :=
  ⟨rfl, rfl⟩

/-- Claim C9 (code bug): the spec and the repository's own test test_heal
require an `overwrite` field on the `_Batch` record, but the namedtuple in
src/carbonate_sync.py has no such field, so the test's `_Batch(**attr)` call
cannot succeed and `_heal` never consults an overwrite flag. -/
theorem batch_overwrite_field_missing :
    "overwrite" ∈ testHealBatchKwargs ∧ "overwrite" ∉ batchFields ∧
    ¬ (∀ k ∈ testHealBatchKwargs, k ∈ batchFields) := by
  decide

/-- Claim C10: a peer whose eligible metric set is empty yields an empty batch
list, and the fetch-and-merge pipeline performs no fetch and no heal, reports
the single progress value 0 = 100 percent of its zero total, and does not
fail. -/
theorem empty_metric_set_no_work {M P : Type} [LinearOrder M] (b0 : _Batch P)
    (catalogue : List M) (exclude : List (M → Bool)) (own : M → Bool)
    (metric_to_fs : M → P) (batch_size cpu : Nat)
    (hempty : _list_metrics catalogue exclude own = []) (hbs : 0 < batch_size) :
    peerBatches b0 catalogue exclude own metric_to_fs batch_size = some [] ∧
    _fetch_merge cpu ([] : List (_Batch P)) = some ([0], [], []) ∧
    totalMetrics ([] : List (_Batch P)) = 0 := by
  refine ⟨?_, by rfl, by rfl⟩
  unfold peerBatches
  rw [hempty]
  unfold _Batch.split_chunks
  simp [Nat.pos_iff_ne_zero.mp hbs, sliceChunks, sliceChunksFuel_nil]

/-- Witness for C10: a catalogue whose only metric is excluded, batch size
1000, four CPUs. -/
theorem empty_metric_set_no_work_witness :
    (_list_metrics [7] [fun m => decide (m = 7)] (fun _ => true) = [] ∧ 0 < 1000) ∧
    (peerBatches (mkBatch []) [7] [fun m => decide (m = 7)] (fun _ => true) id 1000 =
       some [] ∧
     _fetch_merge 4 ([] : List (_Batch Nat)) = some ([0], [], []) ∧
     totalMetrics ([] : List (_Batch Nat)) = 0) :=
  ⟨⟨by rfl, by decide⟩,
   empty_metric_set_no_work (mkBatch []) [7] [fun m => decide (m = 7)] (fun _ => true)
     id 1000 4 (by rfl) (by decide)⟩
